import Mathlib

/-!
# Shallow embedding of the `hr_mvp` employee-roster core

This file embeds the data model and query operations of `hr_mvp/roster.py`
and the month-display helper of `hr_mvp/cli.py`, and proves the behavioural
claims about them.

Modelling conventions:
* Calendar dates are day numbers (`Int`): Python `date` values are totally
  ordered and the code only compares them and adds day spans
  (`date + timedelta(days=n)` becomes `d + n`).
* Python `float` month counts are modelled exactly as rationals (`ℚ`).
* Python's `Optional[T]` is `Option`.
* Python's stable `list.sort(key=...)` is `List.insertionSort` with the
  pulled-back `≤` on keys (insertion sort is a stable sort, and a stable
  sort's output is determined by the input order and the key preorder).
* Python `dict` built by `counts[key] = counts.get(key, 0) + 1` is an
  association list updated in insertion order (`dictBump`).
-/

/-- Python's `needle in hay` substring test on strings, on the underlying
character lists: `needle` occurs contiguously in `hay`. -/
def isSubstring (needle : List Char) : List Char → Bool
  | [] => needle.isEmpty
  | c :: rest => needle.isPrefixOf (c :: rest) || isSubstring needle rest

/-- Python's `str.strip()` on the underlying character list: drop leading
and trailing whitespace. -/
def stripChars (l : List Char) : List Char :=
  ((l.dropWhile Char.isWhitespace).reverse.dropWhile Char.isWhitespace).reverse

/-- Python's `str.strip()`. -/
def pyStrip (s : String) : String := String.mk (stripChars s.data)

/-- Python's `str.lower()`, on the underlying character list (character-wise
lowercasing; Python lowercases per character as well for the alphabets in
play, and Korean text is unaffected). -/
def lowerChars (l : List Char) : List Char := l.map Char.toLower

/-- Python's `" ".join(parts)` (`str.join` with a single-space separator). -/
def joinSp : List String → String
  | [] => ""
  | [s] => s
  | s :: rest => s ++ " " ++ joinSp rest

/-- Python's `date.max` (9999-12-31), as its proleptic Gregorian ordinal.
Used only as the `or date.max` fallback sort key in
`upcoming_probation_end`; the fallback is never reached because records
without a `probation_end` are filtered out first. -/
def dateMax : Int := 3652059

/-- One row of the roster: `EmployeeRecord` from `hr_mvp/roster.py`.
Dates are day numbers, month counters are integers; a blank CSV cell is
`none` (absence, not zero). Field defaults only abbreviate test fixtures;
they play no role in the semantics. -/
structure EmployeeRecord where
  employee_id : String := ""
  payroll_id : String := ""
  name : String := ""
  gender : String := ""
  birthdate : Option Int := none
  age_group : String := ""
  team : String := ""
  part : String := ""
  title : String := ""
  start_date : Option Int := none
  probation_end : Option Int := none
  resignation_date : Option Int := none
  tenure_text : String := ""
  prior_experience_text : String := ""
  total_experience_text : String := ""
  contract_type : String := ""
  phone : String := ""
  email : String := ""
  work_location : String := ""
  job_type : String := ""
  employment_status : String := ""
  employment_status_detail : String := ""
  prior_experience_months : Option Int := none
  current_experience_months : Option Int := none
  total_experience_months : Option Int := none
  deriving DecidableEq, Repr

namespace EmployeeRecord

/-- Embeds `EmployeeRecord.is_active`: false as soon as a resignation date is
present, otherwise true iff the employment status contains "재직". -/
def is_active (e : EmployeeRecord) : Bool :=
  match e.resignation_date with
  | some _ => false
  | none => isSubstring "재직".data e.employment_status.data

/-- Embeds `EmployeeRecord.tenure_months`: alias for `current_experience_months`. -/
def tenure_months (e : EmployeeRecord) : Option Int :=
  e.current_experience_months

/-- Embeds `EmployeeRecord.matches` (renamed: `matches` is reserved in Lean):
case-insensitive substring test of the keyword against name, team, part
and title. -/
def matchesKw (e : EmployeeRecord) (keyword : String) : Bool :=
  let keyword_lower := lowerChars keyword.data
  isSubstring keyword_lower (lowerChars e.name.data)
    || isSubstring keyword_lower (lowerChars e.team.data)
    || isSubstring keyword_lower (lowerChars e.part.data)
    || isSubstring keyword_lower (lowerChars e.title.data)

end EmployeeRecord

/-- Python's `counts[key] = counts.get(key, 0) + 1` on an insertion-ordered
`dict` modelled as an association list: update the entry in place if the key
is present, else append the key with count 1. -/
def dictBump (counts : List (String × Nat)) (key : String) : List (String × Nat) :=
  match counts with
  | [] => [(key, 1)]
  | (k, v) :: rest => if k = key then (k, v + 1) :: rest else (k, v) :: dictBump rest key

/-- The comparison `sorted(counts.items(), key=lambda item: item[0])` sorts
by: pair ordering on the key (first component). -/
def pairKeyLe (a b : String × Nat) : Prop := a.1 ≤ b.1

instance : DecidableRel pairKeyLe := fun a b => inferInstanceAs (Decidable (a.1 ≤ b.1))

instance : IsTotal (String × Nat) pairKeyLe := ⟨fun a b => le_total a.1 b.1⟩

instance : IsTrans (String × Nat) pairKeyLe := ⟨fun _ _ _ => le_trans⟩

/-- Sort key of `results.sort(key=lambda emp: emp.probation_end or date.max)`:
a Python `date` is always truthy, so `or date.max` only replaces `None`. -/
def probKeyLe (a b : EmployeeRecord) : Prop :=
  a.probation_end.getD dateMax ≤ b.probation_end.getD dateMax

instance : DecidableRel probKeyLe := fun a b =>
  inferInstanceAs (Decidable (a.probation_end.getD dateMax ≤ b.probation_end.getD dateMax))

instance : IsTotal EmployeeRecord probKeyLe :=
  ⟨fun a b => le_total (a.probation_end.getD dateMax) (b.probation_end.getD dateMax)⟩

instance : IsTrans EmployeeRecord probKeyLe := ⟨fun _ _ _ => le_trans⟩

/-- Embeds `EmployeeRoster`: an insertion-ordered collection of records.
Python's stable `list.sort` / `sorted` is modelled by `List.insertionSort`,
which is a stable sort (a stable sort's output is determined by the input
order and the key preorder, so any stable sort models `list.sort`). -/
structure EmployeeRoster where
  _employees : List EmployeeRecord
  deriving DecidableEq

namespace EmployeeRoster

/-- Embeds `EmployeeRoster.active`: the records with `is_active`, in roster order. -/
def active (r : EmployeeRoster) : List EmployeeRecord :=
  r._employees.filter (fun employee => employee.is_active)

/-- Embeds `EmployeeRoster.summary_by_team`: count active employees per team
("(미지정)" for an empty team string, which is falsy in `employee.team or
"(미지정)"`), then sort the `dict` items by key. -/
def summary_by_team (r : EmployeeRoster) : List (String × Nat) :=
  let counts := r.active.foldl
    (fun counts employee =>
      dictBump counts (if employee.team = "" then "(미지정)" else employee.team)) []
  counts.insertionSort pairKeyLe

/-- Embeds `EmployeeRoster.summary_by_status`: count ALL employees per employment
status ("(미지정)" for an empty status), then sort the `dict` items by key. -/
def summary_by_status (r : EmployeeRoster) : List (String × Nat) :=
  let counts := r._employees.foldl
    (fun counts employee =>
      dictBump counts
        (if employee.employment_status = "" then "(미지정)" else employee.employment_status)) []
  counts.insertionSort pairKeyLe

/-- Embeds `EmployeeRoster.average_tenure_months`: mean of the present
`tenure_months` over the selected population; `None` when that filtered
list is empty (`if not tenures`). -/
def average_tenure_months (r : EmployeeRoster) (active_only : Bool) : Option ℚ :=
  let population := if active_only then r.active else r._employees
  let tenures : List Int := population.filterMap (fun emp => emp.tenure_months)
  if tenures = [] then none
  else some ((tenures.sum : ℚ) / (tenures.length : ℚ))

/-- The `tenures` list of `average_tenure_months`: the present
`tenure_months` values over the population selected by `active_only`,
named so specifications can refer to it. -/
def tenureValues (r : EmployeeRoster) (active_only : Bool) : List Int :=
  (if active_only then r.active else r._employees).filterMap (fun emp => emp.tenure_months)

/-- Embeds `EmployeeRoster.search`: strip the keyword; an empty result for a
keyword that is empty after stripping (`if not keyword`), else the records
matching the stripped keyword, in roster order. -/
def search (r : EmployeeRoster) (keyword : String) : List EmployeeRecord :=
  let keyword := pyStrip keyword
  if keyword = "" then []
  else r._employees.filter (fun employee => employee.matchesKw keyword)

/-- Embeds `EmployeeRoster.upcoming_probation_end`: the active records whose
`probation_end` is present and lies in
`[reference_date, reference_date + within_days]`, stably sorted ascending
by `probation_end`. `reference_date` is the already-resolved reference day
(the Python default `date.today()` is impure and resolved by the caller). -/
def upcoming_probation_end (r : EmployeeRoster) (within_days : Int)
    (reference_date : Int) : List EmployeeRecord :=
  let window_end := reference_date + within_days
  let results := r.active.filter (fun employee =>
    match employee.probation_end with
    | none => false
    | some p => decide (reference_date ≤ p) && decide (p ≤ window_end))
  results.insertionSort probKeyLe

end EmployeeRoster

/-- Python's built-in `round(x)` to an integer: round half to even
(banker's rounding), on the exact rational value. -/
def pyRound (q : ℚ) : Int :=
  let f : Int := ⌊q⌋
  if q - f < 1 / 2 then f
  else if q - f > 1 / 2 then f + 1
  else if f % 2 = 0 then f else f + 1

/-- Python's fixed-point rendering with one decimal place, modelling the
format expression with precision 1 applied to `months` in
`_describe_months`: scale by ten, round half to even, print sign, integer
and tenths digits. -/
def fmtOneDec (q : ℚ) : String :=
  let n : Int := pyRound (q * 10)
  let a : Nat := n.natAbs
  (if n < 0 then "-" else "") ++ toString (a / 10) ++ "." ++ toString (a % 10)

/-- Embeds `_format_months` of `hr_mvp/roster.py` (leading underscore dropped):
`divmod(months, 12)` is floor division, the components render when nonzero
(Python integer truthiness). -/
def format_months : Option Int → String
  | none => "-"
  | some months =>
    let years := Int.fdiv months 12
    let remaining_months := Int.fmod months 12
    if years ≠ 0 ∧ remaining_months ≠ 0 then
      toString years ++ "년 " ++ toString remaining_months ++ "개월"
    else if years ≠ 0 then toString years ++ "년"
    else toString remaining_months ++ "개월"

/-- Embeds `_describe_months` of `hr_mvp/cli.py` (leading underscore dropped): round
the month count half to even, split the rounded value with floor
division/modulo, render nonzero components, `"0개월"` when both are zero,
and append the parenthesized one-decimal approximation when rounding
changed the value. -/
def describe_months : Option ℚ → String
  | none => "-"
  | some months =>
    let rounded : Int := pyRound months
    let years : Int := Int.fdiv rounded 12
    let remaining_months : Int := Int.fmod rounded 12
    let parts : List String :=
      (if years ≠ 0 then [toString years ++ "년"] else []) ++
        (if remaining_months ≠ 0 then [toString remaining_months ++ "개월"] else [])
    let parts := if parts = [] then ["0개월"] else parts
    let parts :=
      if (rounded : ℚ) ≠ months then parts ++ ["(약 " ++ fmtOneDec months ++ "개월)"]
      else parts
    joinSp parts

/-- The month-count-to-display rule exactly as the specification words it
(claim C3): whole years are the integer floor of `months / 12`, the
remaining months are `months mod 12` floored, the year component renders
only when `years > 0`, the month component only when `remaining > 0`,
`"0개월"` when both are zero, and the parenthesized one-decimal
approximation is appended exactly when the value is a non-integer. -/
def describeMonthsClaimed (q : ℚ) : String :=
  let years : Int := ⌊q / 12⌋
  let remaining_months : Int := ⌊q - 12 * (⌊q / 12⌋ : ℚ)⌋
  let parts : List String :=
    (if years > 0 then [toString years ++ "년"] else []) ++
      (if remaining_months > 0 then [toString remaining_months ++ "개월"] else [])
  let parts := if parts = [] then ["0개월"] else parts
  let parts :=
    if (⌊q⌋ : ℚ) = q then parts else parts ++ ["(약 " ++ fmtOneDec q ++ "개월)"]
  joinSp parts

/-- The display rule shared by `format_months` and `describe_months` as
amended: given the whole-years and remaining-months components and an
optional approximation text, render the nonzero components, `"0개월"` when
both are zero, then the approximation, joined by single spaces. -/
def monthsRule (years remaining_months : Int) (approx : Option String) : String :=
  let parts : List String :=
    (if years ≠ 0 then [toString years ++ "년"] else []) ++
      (if remaining_months ≠ 0 then [toString remaining_months ++ "개월"] else [])
  let parts := if parts = [] then ["0개월"] else parts
  let parts :=
    match approx with
    | none => parts
    | some a => parts ++ ["(약 " ++ a ++ "개월)"]
  joinSp parts

/-- A one-record roster used as a concrete test fixture. -/
def rosterA : EmployeeRoster := ⟨[{ name := "a" }]⟩

/-- A two-record roster of active employees with known tenures
(average 12 months), a concrete test fixture. -/
def rosterAvg : EmployeeRoster :=
  ⟨[{ employment_status := "재직", current_experience_months := some 10 },
    { employment_status := "재직", current_experience_months := some 14 }]⟩

/-- A three-record roster of active employees with probation end dates,
a concrete test fixture. -/
def rosterProb : EmployeeRoster :=
  ⟨[{ name := "x", employment_status := "재직", probation_end := some 50 },
    { name := "y", employment_status := "재직", probation_end := some 20 },
    { name := "z", employment_status := "재직", probation_end := some 20 }]⟩

example : format_months (some 14) = "1년 2개월" := by decide
example : format_months (some 12) = "1년" := by decide
example : format_months (some 5) = "5개월" := by decide
example : format_months (some 0) = "0개월" := by decide
example : format_months none = "-" := by decide

section StripLemmas

variable {α : Type} {p : α → Bool}

theorem dropWhile_head_false {l : List α} {a : α} {t : List α}
    (h : l.dropWhile p = a :: t) : p a = false := by
  have := List.head?_dropWhile_not p l
  rw [h] at this
  simpa using this

theorem dropWhile_eq_self_of_prefix {l x : List α} (h : x <+: l.dropWhile p) :
    x.dropWhile p = x := by
  match x, h with
  | [], _ => rfl
  | a :: t, ⟨s, hs⟩ =>
    have ha : p a = false := dropWhile_head_false (l := l) (by rw [← hs]; rfl)
    simp [List.dropWhile_cons, ha]

theorem stripChars_eq_rdropWhile (l : List Char) :
    stripChars l = List.rdropWhile Char.isWhitespace (l.dropWhile Char.isWhitespace) := rfl

theorem stripChars_idem (l : List Char) : stripChars (stripChars l) = stripChars l := by
  have h2 : (stripChars l).dropWhile Char.isWhitespace = stripChars l := by
    rw [stripChars_eq_rdropWhile]
    exact dropWhile_eq_self_of_prefix
      (List.rdropWhile_prefix Char.isWhitespace (l.dropWhile Char.isWhitespace))
  rw [stripChars_eq_rdropWhile (stripChars l), h2, stripChars_eq_rdropWhile l,
    List.rdropWhile_idempotent]

theorem pyStrip_idem (s : String) : pyStrip (pyStrip s) = pyStrip s := by
  simp [pyStrip, stripChars_idem]

end StripLemmas

example : ({ employment_status := "재직" } : EmployeeRecord).is_active = true := by decide
example : ({ employment_status := "재직", resignation_date := some 3 } :
    EmployeeRecord).is_active = false := by decide
example : ({ employment_status := "휴직(재직)" } : EmployeeRecord).is_active = true := by decide
example : ({ name := "abc" } : EmployeeRecord).matchesKw "B" = true := by decide
example : pyStrip "  a b " = "a b" := by decide

/-- C1: `is_active` is true iff `resignation_date` is absent and
`employment_status` contains the marker substring "재직"; in particular a
present resignation date forces `is_active = false` regardless of the
status text. -/
theorem is_active_iff_spec (e : EmployeeRecord) :
    (e.is_active = true ↔
      e.resignation_date = none ∧
        isSubstring "재직".data e.employment_status.data = true)
    ∧ ∀ d : Int, e.resignation_date = some d → e.is_active = false := by
  constructor
  · cases h : e.resignation_date <;> simp [EmployeeRecord.is_active, h]
  · intro d hd
    simp [EmployeeRecord.is_active, hd]

/-- Witness for C1 at a record whose status text says "재직" but which has
a resignation date: it is nevertheless inactive. -/
theorem is_active_iff_spec_witness :
    ({ resignation_date := some 0, employment_status := "재직" } :
      EmployeeRecord).is_active = false :=
  (is_active_iff_spec _).2 0 rfl

/-- C9: `search` strips the keyword before matching, so searching with any
keyword gives the same result as searching with its stripped form. -/
theorem search_eq_search_strip (r : EmployeeRoster) (keyword : String) :
    r.search keyword = r.search (pyStrip keyword) := by
  unfold EmployeeRoster.search
  rw [pyStrip_idem]

/-- C4 counterexample: on the keyword `" a "` (non-empty after trimming),
`search` does not return the records satisfying `matches(keyword)`: the
single record of `rosterA` is returned although `matches(" a ")` is false
on it, because `search` matches against the stripped keyword. -/
theorem search_matches_cex :
    EmployeeRoster.search rosterA " a " ≠
      rosterA._employees.filter (fun e => e.matchesKw " a ")
    ∧ EmployeeRoster.search rosterA " a " = rosterA._employees
    ∧ EmployeeRecord.matchesKw { name := "a" } " a " = false := by
  refine ⟨by decide, by decide, by decide⟩

/-- C4 as amended: a keyword that is empty after stripping yields an empty
result even on a non-empty roster; any other keyword yields exactly the
records for which `matches` holds of the STRIPPED keyword, in roster
order. -/
theorem search_spec (r : EmployeeRoster) (keyword : String) :
    (pyStrip keyword = "" → r.search keyword = [])
    ∧ (pyStrip keyword ≠ "" →
        r.search keyword =
          r._employees.filter (fun e => e.matchesKw (pyStrip keyword))) := by
  unfold EmployeeRoster.search
  constructor
  · intro h
    simp [h]
  · intro h
    simp [h]

/-- Witness for C4 (amended): on the non-empty `rosterA`, a whitespace-only
keyword returns the empty list, and `" a "` returns the matches of the
stripped keyword. -/
theorem search_spec_witness :
    EmployeeRoster.search rosterA "   " = []
    ∧ EmployeeRoster.search rosterA " a " =
        rosterA._employees.filter (fun e => e.matchesKw (pyStrip " a ")) :=
  ⟨(search_spec rosterA "   ").1 (by decide), (search_spec rosterA " a ").2 (by decide)⟩

/-- C5: `average_tenure_months` is absent exactly when the selected
population (active records when `active_only`, else all records) has no
present `tenure_months`; otherwise it is some value whose product with the
population count is the population's total tenure, i.e. the arithmetic
mean. -/
theorem average_tenure_months_spec (r : EmployeeRoster) (active_only : Bool) :
    (r.average_tenure_months active_only = none ↔ r.tenureValues active_only = [])
    ∧ (r.tenureValues active_only ≠ [] →
        ∃ q : ℚ, r.average_tenure_months active_only = some q ∧
          q * (((r.tenureValues active_only).length : ℕ) : ℚ) =
            (((r.tenureValues active_only).sum : ℤ) : ℚ)) := by
  have key : r.average_tenure_months active_only =
      if r.tenureValues active_only = [] then none
      else some (((r.tenureValues active_only).sum : ℚ) /
        ((r.tenureValues active_only).length : ℚ)) := by
    unfold EmployeeRoster.average_tenure_months EmployeeRoster.tenureValues
    rfl
  constructor
  · rw [key]
    by_cases h : r.tenureValues active_only = [] <;> simp [h]
  · intro h
    refine ⟨((r.tenureValues active_only).sum : ℚ) /
      ((r.tenureValues active_only).length : ℚ), by rw [key, if_neg h], ?_⟩
    have hlen : (((r.tenureValues active_only).length : ℕ) : ℚ) ≠ 0 :=
      Nat.cast_ne_zero.mpr (Nat.pos_iff_ne_zero.mp (List.length_pos.mpr h))
    exact div_mul_cancel₀ _ hlen

/-- Witness for C5 at a roster with two active employees of tenures 10 and
14 months: the average exists and its product with the count 2 is the
total 24. -/
theorem average_tenure_months_spec_witness :
    ∃ q : ℚ, rosterAvg.average_tenure_months true = some q ∧
      q * (((rosterAvg.tenureValues true).length : ℕ) : ℚ) =
        (((rosterAvg.tenureValues true).sum : ℤ) : ℚ) :=
  (average_tenure_months_spec rosterAvg true).2 (by decide)

/-- C8: a negative `within_days` makes the window end before it starts, so
`upcoming_probation_end` is empty rather than an error. -/
theorem upcoming_probation_end_neg_window (r : EmployeeRoster)
    (within_days reference_date : Int) (h : within_days < 0) :
    r.upcoming_probation_end within_days reference_date = [] := by
  unfold EmployeeRoster.upcoming_probation_end
  have hfil : r.active.filter (fun employee =>
      match employee.probation_end with
      | none => false
      | some p => decide (reference_date ≤ p) &&
          decide (p ≤ reference_date + within_days)) = [] := by
    rw [List.filter_eq_nil_iff]
    intro e _
    cases hp : e.probation_end with
    | none => simp
    | some p =>
      simp only [hp, Bool.and_eq_true, decide_eq_true_eq, not_and]
      omega
  simp only [hfil]
  rfl

/-- Witness for C8 at a roster whose three active employees all have
probation end dates: with `within_days = -1` the result is empty. -/
theorem upcoming_probation_end_neg_window_witness :
    rosterProb.upcoming_probation_end (-1) 0 = [] :=
  upcoming_probation_end_neg_window rosterProb (-1) 0 (by decide)

/-- C2: membership in `upcoming_probation_end` is exactly: a roster record
that is active, has a present `probation_end`, and whose `probation_end`
lies in the inclusive window `[reference_date, reference_date +
within_days]`; records with absent `probation_end` and inactive records
are never included. -/
theorem mem_upcoming_probation_end_iff (r : EmployeeRoster)
    (within_days reference_date : Int) (e : EmployeeRecord) :
    e ∈ r.upcoming_probation_end within_days reference_date ↔
      e ∈ r._employees ∧ e.is_active = true ∧
        ∃ p : Int, e.probation_end = some p ∧
          reference_date ≤ p ∧ p ≤ reference_date + within_days := by
  simp only [EmployeeRoster.upcoming_probation_end, EmployeeRoster.active,
    List.mem_insertionSort, List.mem_filter]
  constructor
  · rintro ⟨⟨he, hact⟩, hcond⟩
    refine ⟨he, hact, ?_⟩
    cases hp : e.probation_end with
    | none => rw [hp] at hcond; exact absurd hcond (by simp)
    | some p =>
      rw [hp] at hcond
      simp only [Bool.and_eq_true, decide_eq_true_eq] at hcond
      exact ⟨p, rfl, hcond.1, hcond.2⟩
  · rintro ⟨he, hact, p, hp, h1, h2⟩
    refine ⟨⟨he, hact⟩, ?_⟩
    rw [hp]
    simp [h1, h2]

section DictLemmas

theorem sumVals_dictBump (counts : List (String × Nat)) (key : String) :
    ((dictBump counts key).map Prod.snd).sum = (counts.map Prod.snd).sum + 1 := by
  induction counts with
  | nil => simp [dictBump]
  | cons kv rest ih =>
    obtain ⟨k, v⟩ := kv
    by_cases h : k = key
    · simp only [dictBump, if_pos h, List.map_cons, List.sum_cons]
      omega
    · simp only [dictBump, if_neg h, List.map_cons, List.sum_cons, ih]
      omega

theorem keys_dictBump (counts : List (String × Nat)) (key : String) :
    (dictBump counts key).map Prod.fst =
      if key ∈ counts.map Prod.fst then counts.map Prod.fst
      else counts.map Prod.fst ++ [key] := by
  induction counts with
  | nil => simp [dictBump]
  | cons kv rest ih =>
    obtain ⟨k, v⟩ := kv
    by_cases h : k = key
    · subst h
      simp [dictBump]
    · have h' : ¬ key = k := fun hh => h hh.symm
      simp only [dictBump, if_neg h, List.map_cons, ih, List.mem_cons]
      by_cases hm : key ∈ rest.map Prod.fst
      · simp [hm, h']
      · simp [hm, h']

theorem keysNodup_dictBump {counts : List (String × Nat)} {key : String}
    (h : (counts.map Prod.fst).Nodup) : ((dictBump counts key).map Prod.fst).Nodup := by
  rw [keys_dictBump]
  by_cases hm : key ∈ counts.map Prod.fst
  · simpa [hm] using h
  · simp only [if_neg hm]
    simp [List.nodup_append, h, hm]

theorem keysMem_dictBump (counts : List (String × Nat)) (key k : String) :
    (k ∈ (dictBump counts key).map Prod.fst ↔ k ∈ counts.map Prod.fst ∨ k = key) := by
  rw [keys_dictBump]
  by_cases hm : key ∈ counts.map Prod.fst
  · simp only [if_pos hm]
    constructor
    · exact Or.inl
    · rintro (h | rfl)
      · exact h
      · exact hm
  · simp [hm]

theorem sumVals_foldl_dictBump (f : EmployeeRecord → String) :
    ∀ (l : List EmployeeRecord) (c : List (String × Nat)),
      (((l.foldl (fun counts e => dictBump counts (f e)) c).map Prod.snd).sum
        = (c.map Prod.snd).sum + l.length)
  | [], c => by simp
  | e :: t, c => by
    rw [List.foldl_cons, sumVals_foldl_dictBump f t, sumVals_dictBump, List.length_cons]
    omega

theorem keysNodup_foldl_dictBump (f : EmployeeRecord → String) :
    ∀ (l : List EmployeeRecord) (c : List (String × Nat)),
      (c.map Prod.fst).Nodup →
      ((l.foldl (fun counts e => dictBump counts (f e)) c).map Prod.fst).Nodup
  | [], c, h => h
  | e :: t, c, h => by
    rw [List.foldl_cons]
    exact keysNodup_foldl_dictBump f t _ (keysNodup_dictBump h)

theorem keysMem_foldl_dictBump (f : EmployeeRecord → String) :
    ∀ (l : List EmployeeRecord) (c : List (String × Nat)) (k : String),
      (k ∈ (l.foldl (fun counts e => dictBump counts (f e)) c).map Prod.fst ↔
        k ∈ c.map Prod.fst ∨ k ∈ l.map f)
  | [], c, k => by simp
  | e :: t, c, k => by
    rw [List.foldl_cons, keysMem_foldl_dictBump f t _ k, keysMem_dictBump]
    simp only [List.map_cons, List.mem_cons]
    tauto

end DictLemmas

/-- C6: the keys of `summary_by_team` partition the active population —
the counts sum to `len(active())`, and the keys are exactly the active
records' team keys ("(미지정)" substituting an empty team) — and the keys
are in strictly ascending lexicographic order. -/
theorem summary_by_team_spec (r : EmployeeRoster) :
    ((r.summary_by_team.map Prod.snd).sum = r.active.length)
    ∧ (r.summary_by_team.map Prod.fst).Pairwise (· < ·)
    ∧ ∀ k : String, (k ∈ r.summary_by_team.map Prod.fst ↔
        k ∈ r.active.map (fun e => if e.team = "" then "(미지정)" else e.team)) := by
  have hperm : List.Perm r.summary_by_team
      (r.active.foldl (fun counts e =>
        dictBump counts (if e.team = "" then "(미지정)" else e.team)) []) :=
    List.perm_insertionSort pairKeyLe _
  have hnodup0 := keysNodup_foldl_dictBump
    (fun e => if e.team = "" then "(미지정)" else e.team) r.active [] (by simp)
  have hnodup : (r.summary_by_team.map Prod.fst).Nodup :=
    ((hperm.map Prod.fst).nodup_iff).mpr hnodup0
  refine ⟨?_, ?_, ?_⟩
  · have := (hperm.map Prod.snd).sum_eq
    rw [this, sumVals_foldl_dictBump]
    simp
  · have hle : r.summary_by_team.Pairwise pairKeyLe :=
      List.sorted_insertionSort pairKeyLe _
    have hne : r.summary_by_team.Pairwise (fun a b => a.1 ≠ b.1) :=
      List.pairwise_map.mp hnodup
    have hlt : r.summary_by_team.Pairwise (fun a b : String × Nat => a.1 < b.1) :=
      (hle.and hne).imp (fun h => lt_of_le_of_ne h.1 h.2)
    exact List.pairwise_map.mpr hlt
  · intro k
    rw [(hperm.map Prod.fst).mem_iff, keysMem_foldl_dictBump]
    simp

/-- C10: the counts of `summary_by_status` sum to the size of the whole
roster: every record, active or not, is counted under exactly one status
key, "(미지정)" substituting an empty `employment_status`. -/
theorem summary_by_status_total (r : EmployeeRoster) :
    ((r.summary_by_status.map Prod.snd).sum = r._employees.length)
    ∧ ∀ k : String, (k ∈ r.summary_by_status.map Prod.fst ↔
        k ∈ r._employees.map (fun e =>
          if e.employment_status = "" then "(미지정)" else e.employment_status)) := by
  have hperm : List.Perm r.summary_by_status
      (r._employees.foldl (fun counts e =>
        dictBump counts
          (if e.employment_status = "" then "(미지정)" else e.employment_status)) []) :=
    List.perm_insertionSort pairKeyLe _
  refine ⟨?_, ?_⟩
  · have := (hperm.map Prod.snd).sum_eq
    rw [this, sumVals_foldl_dictBump]
    simp
  · intro k
    rw [(hperm.map Prod.fst).mem_iff, keysMem_foldl_dictBump]
    simp

/-- C7: `upcoming_probation_end` is sorted ascending by the
`probation_end` sort key, and the sort is stable: restricted to any single
`probation_end` date, the result lists exactly the eligible records in
source-roster order. -/
theorem upcoming_probation_end_sorted_stable (r : EmployeeRoster)
    (within_days reference_date : Int) :
    (r.upcoming_probation_end within_days reference_date).Pairwise probKeyLe
    ∧ ∀ d : Int,
      (r.upcoming_probation_end within_days reference_date).filter
          (fun e => decide (e.probation_end = some d)) =
        r._employees.filter (fun e => e.is_active
          && (match e.probation_end with
              | none => false
              | some p => decide (reference_date ≤ p)
                  && decide (p ≤ reference_date + within_days))
          && decide (e.probation_end = some d)) := by
  have hdef : r.upcoming_probation_end within_days reference_date =
      (r.active.filter (fun employee =>
        match employee.probation_end with
        | none => false
        | some p => decide (reference_date ≤ p)
            && decide (p ≤ reference_date + within_days))).insertionSort probKeyLe := rfl
  constructor
  · rw [hdef]
    exact List.sorted_insertionSort probKeyLe _
  · intro d
    have hBpair : ((r.active.filter (fun employee =>
        match employee.probation_end with
        | none => false
        | some p => decide (reference_date ≤ p)
            && decide (p ≤ reference_date + within_days))).filter
          (fun e => decide (e.probation_end = some d))).Pairwise probKeyLe := by
      apply List.pairwise_of_forall_mem_list
      intro a ha b hb
      have hpa := (List.mem_filter.mp ha).2
      have hpb := (List.mem_filter.mp hb).2
      simp only [decide_eq_true_eq] at hpa hpb
      unfold probKeyLe
      rw [hpa, hpb]
    have hsub : List.Sublist
        ((r.active.filter (fun employee =>
          match employee.probation_end with
          | none => false
          | some p => decide (reference_date ≤ p)
              && decide (p ≤ reference_date + within_days))).filter
            (fun e => decide (e.probation_end = some d)))
        ((r.active.filter (fun employee =>
          match employee.probation_end with
          | none => false
          | some p => decide (reference_date ≤ p)
              && decide (p ≤ reference_date + within_days))).insertionSort probKeyLe) :=
      List.sublist_insertionSort hBpair (List.filter_sublist _)
    have hself : (((r.active.filter (fun employee =>
        match employee.probation_end with
        | none => false
        | some p => decide (reference_date ≤ p)
            && decide (p ≤ reference_date + within_days))).filter
          (fun e => decide (e.probation_end = some d))).filter
          (fun e => decide (e.probation_end = some d))) =
        ((r.active.filter (fun employee =>
          match employee.probation_end with
          | none => false
          | some p => decide (reference_date ≤ p)
              && decide (p ≤ reference_date + within_days))).filter
          (fun e => decide (e.probation_end = some d))) :=
      List.filter_eq_self.mpr (fun a ha => (List.mem_filter.mp ha).2)
    have hsub2 := hsub.filter (fun e => decide (e.probation_end = some d))
    rw [hself] at hsub2
    have hperm := (List.perm_insertionSort probKeyLe
      (r.active.filter (fun employee =>
        match employee.probation_end with
        | none => false
        | some p => decide (reference_date ≤ p)
            && decide (p ≤ reference_date + within_days)))).filter
      (fun e => decide (e.probation_end = some d))
    have heq := hsub2.eq_of_length hperm.length_eq.symm
    rw [hdef, ← heq]
    unfold EmployeeRoster.active
    rw [List.filter_filter, List.filter_filter]
    apply List.filter_congr
    intro a _
    cases a.is_active <;>
      cases hpa : a.probation_end <;>
        simp [hpa, Bool.and_comm, Bool.and_left_comm, Bool.and_assoc]

/-- C3 counterexample: at the month count 11.5 (e.g. the average of
tenures 10 and 13), the code rounds half-to-even FIRST (to 12) and then
splits, displaying "1년 (약 11.5개월)", while the claimed rule (whole
years = floor(months/12) = 0, remaining = floor(months mod 12) = 11)
would display "11개월 (약 11.5개월)". -/
theorem describe_months_floor_cex :
    describe_months (some ((23 : ℚ) / 2)) = "1년 (약 11.5개월)"
    ∧ describeMonthsClaimed ((23 : ℚ) / 2) = "11개월 (약 11.5개월)"
    ∧ describe_months (some ((23 : ℚ) / 2)) ≠ describeMonthsClaimed ((23 : ℚ) / 2) := by
  have hfloor : ⌊(23 : ℚ) / 2⌋ = 11 := by norm_num
  have hround : pyRound ((23 : ℚ) / 2) = 12 := by
    simp only [pyRound, hfloor]
    norm_num
  have hscale : (23 : ℚ) / 2 * 10 = 115 := by norm_num
  have hround2 : pyRound ((23 : ℚ) / 2 * 10) = 115 := by
    rw [hscale]
    simp only [pyRound]
    norm_num
  have hfmt : fmtOneDec ((23 : ℚ) / 2) = "11.5" := by
    simp only [fmtOneDec, hround2]
    decide
  have h1 : describe_months (some ((23 : ℚ) / 2)) = "1년 (약 11.5개월)" := by
    simp only [describe_months, hround, hfmt]
    norm_num
    decide
  have h2 : describeMonthsClaimed ((23 : ℚ) / 2) = "11개월 (약 11.5개월)" := by
    have hf1 : ⌊(23 : ℚ) / 2 / 12⌋ = 0 := by norm_num
    simp only [describeMonthsClaimed, hf1, hfloor, hfmt]
    norm_num
    decide
  refine ⟨h1, h2, ?_⟩
  rw [h1, h2]
  decide

/-- C3 as amended: for the CLI helper the displayed components come from
the half-to-even rounding of the month count — whole years are
`round(months) // 12` (floor division) and the remaining months are
`round(months) % 12` — a component renders exactly when it is nonzero
("only if > 0" of the claim, for nonnegative counts), "0개월" renders when
both are zero, and the approximation is appended exactly when the value is
a non-integer; for the integer-input formatter the components are
`months // 12` and `months % 12` as claimed, with no approximation. -/
theorem months_display_amended_spec :
    (∀ q : ℚ, describe_months (some q) =
      monthsRule (Int.fdiv (pyRound q) 12) (Int.fmod (pyRound q) 12)
        (if (pyRound q : ℚ) = q then none else some (fmtOneDec q)))
    ∧ ∀ n : Int, format_months (some n) =
      monthsRule (Int.fdiv n 12) (Int.fmod n 12) none := by
  constructor
  · intro q
    by_cases h : (pyRound q : ℚ) = q
    · simp [describe_months, monthsRule, h]
    · simp [describe_months, monthsRule, h]
  · intro n
    by_cases hy : Int.fdiv n 12 = 0
    · by_cases hm : Int.fmod n 12 = 0
      · simp [format_months, monthsRule, hy, hm, joinSp]
        decide
      · simp [format_months, monthsRule, hy, hm, joinSp]
    · by_cases hm : Int.fmod n 12 = 0
      · simp [format_months, monthsRule, hy, hm, joinSp]
      · simp only [format_months, monthsRule, hy, hm, ne_eq, not_false_iff,
          and_self, if_true, if_false]
        rw [show ("년 " : String) = "년" ++ " " from rfl]
        simp [joinSp, String.append_assoc]
